import Mathlib

/-!
Shallow embedding of the Edge Stack Manager (`edge/stack` package of the
portainer agent).  The Go source keeps an in-memory map from stack id to a
mutable stack record, reconciles it against desired-state snapshots from the
coordinator, and runs a single background worker that pulls, deploys and
removes stacks through a pluggable deployer.

Modelling choices:
* the stack table (`manager.stacks`, a Go map of pointers) is an association
  list `StackTable`; pointer aliasing is reproduced by writing a record back
  into the table at every point where the Go code mutates it through a pointer
  that is already stored in the map;
* the external collaborators (coordinator client `PortainerClient`, the
  `filesystem.WriteFile` primitive, the yaml image-pull-secret rewriter) are
  oracle functions gathered in `Env`; per-call deployer outcomes (`Pull`,
  `Deploy`, `Remove`) and OS outcomes are passed as explicit parameters;
* observable side effects (file writes, status reports, deployer invocations)
  are recorded in an `Event` list;
* fallible operations yield `Option String` (`none` = success, `some e` = the
  Go error string), matching Go's `error` results.
-/

namespace EdgeStackMgr

/-- Registry credentials attached to a stack (`agent.RegistryCredentials`). -/
structure RegistryCredentials where
  serverURL : String
  username : String
  secret : String
deriving DecidableEq, Repr

/-- Stack status enumeration (`edgeStackStatus` constants). -/
inductive EdgeStackStatus where
  | pending
  | done
  | error
  | deploying
  | retry
deriving DecidableEq, Repr

/-- Stack action enumeration (`edgeStackAction` constants). -/
inductive EdgeStackAction where
  | deploy
  | update
  | delete
  | idle
deriving DecidableEq, Repr

/-- Engine kinds (`engineType` constants). -/
inductive EngineType where
  | dockerStandalone
  | dockerSwarm
  | kubernetes
  | nomad
deriving DecidableEq, Repr

/-- `RetryInterval = 3600 / 5` from the source. -/
def RetryInterval : Nat := 3600 / 5

/-- `MaxRetries = RetryInterval * 24 * 7` from the source. -/
def MaxRetries : Nat := RetryInterval * 24 * 7

/-- The stack record (`edgeStack` struct). -/
structure EdgeStack where
  id : Int
  name : String
  version : Int
  fileFolder : String
  fileName : String
  status : EdgeStackStatus
  action : EdgeStackAction
  registryCredentials : List RegistryCredentials
  nameSpace : String
  prePullImage : Bool
  rePullImage : Bool
  retries : Nat
deriving DecidableEq, Repr

/-- The in-memory stack table `manager.stacks : map[edgeStackID]*edgeStack`. -/
abbrev StackTable := List (Int × EdgeStack)

/-- Map lookup `manager.stacks[id]`. -/
def tableGet : StackTable → Int → Option EdgeStack
  | [], _ => none
  | (k, s) :: t, k' => if k = k' then some s else tableGet t k'

/-- Map insertion / overwrite `manager.stacks[id] = stack`. -/
def tableSet : StackTable → Int → EdgeStack → StackTable
  | [], k, v => [(k, v)]
  | (k', s) :: t, k, v => if k' = k then (k, v) :: t else (k', s) :: tableSet t k v

/-- Map key removal `delete(manager.stacks, id)`. -/
def tableDel : StackTable → Int → StackTable
  | [], _ => []
  | (k', s) :: t, k => if k' = k then t else (k', s) :: tableDel t k

/-- Status codes reported to the coordinator (`portainer.EdgeStackStatus*`). -/
inductive PortainerStatus where
  | acknowledged
  | imagesPulled
  | ok
  | error
deriving DecidableEq, Repr

/-- Observable side effects of the manager: file writes, coordinator status
calls, and deployer / OS invocations. -/
inductive Event where
  | wroteFile (folder fileName content : String)
  | setStatus (id : Int) (st : PortainerStatus) (msg : String)
  | deleteStatus (id : Int)
  | pull (name : String) (files : List String)
  | deploy (name : String) (files : List String) (nameSpace : String)
  | remove (name : String) (files : List String)
  | removeDir (dir : String)
deriving DecidableEq, Repr

/-- The configuration fetched from the coordinator
(`client.GetEdgeStackConfig` result). -/
structure StackConfig where
  name : String
  fileContent : String
  registryCredentials : List RegistryCredentials
  nameSpace : String
  prePullImage : Bool
  rePullImage : Bool
deriving DecidableEq, Repr

/-- Out-of-band stack push payload (`client.EdgeStackData`), with the fields
`buildDeployerParams` reads. -/
structure EdgeStackData where
  id : Int
  name : String
  version : Int
  stackFileContent : String
  registryCredentials : List RegistryCredentials
  prePullImage : Bool
  rePullImage : Bool
deriving DecidableEq, Repr

/-- Oracles for the external collaborators: the coordinator client
(`GetEdgeStackConfig`, `SetEdgeStackStatus`, `DeleteEdgeStackStatus`), the
`filesystem.WriteFile` primitive (`none` = success), and the
`yaml.AddImagePullSecrets` rewriter (its error is discarded by the source). -/
structure Env where
  getEdgeStackConfig : Int → Except String StackConfig
  setEdgeStackStatus : Int → PortainerStatus → String → Option String
  deleteEdgeStackStatus : Int → Option String
  writeFile : String → String → String → Option String
  addImagePullSecrets : String → List RegistryCredentials → String

/-- Modelled from the spec: `agent.EdgeStackFilesPath`, the root directory
for materialized manifests (`edge_stack_root`); the constant lives outside
this package and its concrete value is immaterial to the claims. -/
def EdgeStackFilesPath : String := "/data/edge_stacks"

/-- `fmt.Sprintf("%s/%d", agent.EdgeStackFilesPath, stackID)`. -/
def stackFolder (stackID : Int) : String :=
  EdgeStackFilesPath ++ "/" ++ toString stackID

/-- The manifest filename computation shared verbatim by `processStack`
(lines 152-163) and `buildDeployerParams` (lines 436-449): start from
`docker-compose.yml`, override for Kubernetes and Nomad. -/
def stackFileName (et : EngineType) (name : String) : String :=
  let fn := "docker-compose.yml"
  let fn := if et = EngineType.kubernetes then name ++ ".yml" else fn
  if et = EngineType.nomad then name ++ ".hcl" else fn

/-- The manifest content computation shared by `processStack` and
`buildDeployerParams`: for Kubernetes with non-empty credentials the content
is rewritten by `yaml.AddImagePullSecrets`. -/
def stackFileContent (env : Env) (et : EngineType) (content : String)
    (creds : List RegistryCredentials) : String :=
  if et = EngineType.kubernetes ∧ creds ≠ [] then
    env.addImagePullSecrets content creds
  else content

/-- Fresh record built by `processStack` for an unknown stack id
(`&edgeStack{ID, Action: actionDeploy, Status: StatusPending, Version}`;
remaining fields are Go zero values). -/
def newEdgeStack (stackID version : Int) : EdgeStack :=
  { id := stackID
    name := ""
    version := version
    fileFolder := ""
    fileName := ""
    status := EdgeStackStatus.pending
    action := EdgeStackAction.deploy
    registryCredentials := []
    nameSpace := ""
    prePullImage := false
    rePullImage := false
    retries := 0 }

/-- The tail of `processStack` after the known/unknown branch: fetch the
configuration, materialize the manifest, commit the record, acknowledge.
`inTable` records whether `stack` aliases a record already stored in the map
(Go pointer semantics): if so, every mutation is immediately visible in the
table. -/
def processStackRest (env : Env) (et : EngineType) (tbl : StackTable)
    (stackID : Int) (stack : EdgeStack) (inTable : Bool) :
    StackTable × List Event × Option String :=
  match env.getEdgeStackConfig stackID with
  | Except.error e => (tbl, [], some e)
  | Except.ok cfg =>
      let stack := { stack with
        name := cfg.name
        registryCredentials := cfg.registryCredentials
        nameSpace := cfg.nameSpace
        prePullImage := cfg.prePullImage
        rePullImage := cfg.rePullImage }
      let tbl := if inTable then tableSet tbl stackID stack else tbl
      let folder := stackFolder stackID
      let fileName := stackFileName et stack.name
      let fileContent := stackFileContent env et cfg.fileContent cfg.registryCredentials
      match env.writeFile folder fileName fileContent with
      | some e => (tbl, [], some e)
      | none =>
          let stack := { stack with fileFolder := folder, fileName := fileName }
          let tbl := tableSet tbl stackID stack
          (tbl,
           [Event.wroteFile folder fileName fileContent,
            Event.setStatus stackID PortainerStatus.acknowledged ""],
           env.setEdgeStackStatus stackID PortainerStatus.acknowledged "")

/-- `processStack` (source lines 117-182): handle one desired-state entry. -/
def processStack (env : Env) (et : EngineType) (tbl : StackTable)
    (stackID version : Int) : StackTable × List Event × Option String :=
  match tableGet tbl stackID with
  | some stack =>
      if stack.version = version then (tbl, [], none)
      else
        let stack := { stack with
          action := EdgeStackAction.update
          version := version
          status := EdgeStackStatus.pending }
        processStackRest env et (tableSet tbl stackID stack) stackID stack true
  | none =>
      processStackRest env et tbl stackID (newEdgeStack stackID version) false

/-- Membership test `_, ok := pollResponseStacks[int(stackID)]`. -/
def snapMember (snap : List (Int × Int)) (k : Int) : Bool :=
  snap.any fun p => p.1 = k

/-- `processRemovedStacks` (source lines 184-195): mark every tabled id
absent from the snapshot for deletion. -/
def processRemovedStacks (snap : List (Int × Int)) (tbl : StackTable) :
    StackTable :=
  tbl.map fun p =>
    (p.1,
     if snapMember snap p.1 then p.2
     else { p.2 with
       action := EdgeStackAction.delete
       status := EdgeStackStatus.pending })

/-- The `for stackID, version := range pollResponseStacks` loop of
`UpdateStacksStatus`, over one iteration order of the Go map, with the
early `return err`. -/
def processStacksList (env : Env) (et : EngineType) (tbl : StackTable) :
    List (Int × Int) → StackTable × List Event × Option String
  | [] => (tbl, [], none)
  | (stackID, version) :: rest =>
      match processStack env et tbl stackID version with
      | (tbl', evs, some e) => (tbl', evs, some e)
      | (tbl', evs, none) =>
          match processStacksList env et tbl' rest with
          | (tbl'', evs', r) => (tbl'', evs ++ evs', r)

/-- `UpdateStacksStatus` (source lines 97-115): no-op while disabled,
otherwise process every snapshot entry (aborting on the first error) and
then mark removed tbl. -/
def UpdateStacksStatus (env : Env) (et : EngineType) (isEnabled : Bool)
    (tbl : StackTable) (snap : List (Int × Int)) :
    StackTable × List Event × Option String :=
  if !isEnabled then (tbl, [], none)
  else
    match processStacksList env et tbl snap with
    | (tbl', evs, some e) => (tbl', evs, some e)
    | (tbl', evs, none) => (processRemovedStacks snap tbl', evs, none)

/-- The promotion sweep of `nextPendingStack` (source lines 266-270): when no
pending stack exists, every `Retry` record becomes `Pending`. -/
def promoteRetries (tbl : StackTable) : StackTable :=
  tbl.map fun p =>
    (p.1,
     if p.2.status = EdgeStackStatus.retry then
       { p.2 with status := EdgeStackStatus.pending }
     else p.2)

/-- The first-pass selection of `nextPendingStack` (source lines 260-264). -/
def findPendingStack (tbl : StackTable) : Option EdgeStack :=
  (tbl.find? fun p => p.2.status = EdgeStackStatus.pending).map fun p => p.2

/-- `pullImages` (source lines 275-317).  `pullErr` is the outcome of the
`deployer.Pull` call it makes (if any); failures of the swallowed
`SetEdgeStackStatus` calls are logged only and do not alter state, so they
are not parameters.  Returns the mutated record, the emitted events and the
function's `error` result. -/
def pullImages (stack : EdgeStack) (stackName stackFileLocation : String)
    (pullErr : Option String) : EdgeStack × List Event × Option String :=
  if stack.prePullImage || stack.rePullImage then
    let stack := { stack with retries := stack.retries + 1 }
    if stack.retries ≤ RetryInterval ∨ stack.retries % RetryInterval = 0 then
      let stack := { stack with status := EdgeStackStatus.deploying }
      match pullErr with
      | none =>
          let stack := { stack with action := EdgeStackAction.idle }
          (stack,
           [Event.pull stackName [stackFileLocation],
            Event.setStatus stack.id PortainerStatus.imagesPulled ""],
           none)
      | some e =>
          if stack.retries < MaxRetries then
            ({ stack with status := EdgeStackStatus.retry },
             [Event.pull stackName [stackFileLocation]],
             some e)
          else
            ({ stack with status := EdgeStackStatus.error },
             [Event.pull stackName [stackFileLocation],
              Event.setStatus stack.id PortainerStatus.error e],
             some e)
    else (stack, [], some "skip pulling")
  else (stack, [], none)

/-- `deployStack` (source lines 319-358).  `deployErr` is the outcome of the
`deployer.Deploy` call; the trailing `SetEdgeStackStatus` failure is logged
only. -/
def deployStack (stack : EdgeStack) (stackName stackFileLocation : String)
    (deployErr : Option String) : EdgeStack × List Event :=
  let stack := { stack with
    status := EdgeStackStatus.deploying
    action := EdgeStackAction.idle }
  match deployErr with
  | some e =>
      ({ stack with status := EdgeStackStatus.error },
       [Event.deploy stackName [stackFileLocation] stack.nameSpace,
        Event.setStatus stack.id PortainerStatus.error e])
  | none =>
      ({ stack with status := EdgeStackStatus.done },
       [Event.deploy stackName [stackFileLocation] stack.nameSpace,
        Event.setStatus stack.id PortainerStatus.ok ""])

/-- One worker iteration on a stack whose action is `Deploy` or `Update`
(source lines 241-245): run `pullImages`; `deployStack` runs only when it
returned `nil`. -/
def workerDeployUpdateIter (stack : EdgeStack) (stackName stackFileLocation : String)
    (pullErr deployErr : Option String) : EdgeStack × List Event :=
  match pullImages stack stackName stackFileLocation pullErr with
  | (stack', evs, none) =>
      match deployStack stack' stackName stackFileLocation deployErr with
      | (stack'', evs') => (stack'', evs ++ evs')
  | (stack', evs, some _) => (stack', evs)

/-- Modelled from the spec: Go's `path/filepath.Dir` (standard library,
outside this repository) — the directory portion of a path, i.e. everything
before the final separator. -/
def filepathDir (p : String) : String :=
  let comps := p.splitOn "/"
  if comps.length ≤ 1 then "." else String.intercalate "/" comps.dropLast

/-- `deleteStack` (source lines 360-388): `deployer.Remove`, recursive
directory removal, coordinator status deletion, then table removal; the
first failure returns with the table untouched.  `removeErr`, `removeDirErr`
and `deleteStatusErr` are the outcomes of the three calls in order. -/
def deleteStack (tbl : StackTable) (stack : EdgeStack)
    (stackName stackFileLocation : String)
    (removeErr removeDirErr deleteStatusErr : Option String) :
    StackTable × List Event :=
  match removeErr with
  | some _ => (tbl, [Event.remove stackName [stackFileLocation]])
  | none =>
      match removeDirErr with
      | some _ =>
          (tbl,
           [Event.remove stackName [stackFileLocation],
            Event.removeDir (filepathDir stackFileLocation)])
      | none =>
          match deleteStatusErr with
          | some _ =>
              (tbl,
               [Event.remove stackName [stackFileLocation],
                Event.removeDir (filepathDir stackFileLocation),
                Event.deleteStatus stack.id])
          | none =>
              (tableDel tbl stack.id,
               [Event.remove stackName [stackFileLocation],
                Event.removeDir (filepathDir stackFileLocation),
                Event.deleteStatus stack.id])

/-- `GetEdgeRegistryCredentials` (source lines 500-508): credentials of the
first record found with status `Deploying`, else `nil` (modelled as `[]`). -/
def GetEdgeRegistryCredentials (tbl : StackTable) : List RegistryCredentials :=
  match tbl.find? fun p => p.2.status = EdgeStackStatus.deploying with
  | some p => p.2.registryCredentials
  | none => []

/-- `buildDeployerParams` (source lines 434-498), the out-of-band entry point
behind `DeployStack` / `DeleteStack`.  `del` is the `deleteStack` boolean
argument. -/
def buildDeployerParams (env : Env) (et : EngineType) (tbl : StackTable)
    (stackData : EdgeStackData) (del : Bool) :
    StackTable × List Event × Option String :=
  let folder := stackFolder stackData.id
  let fileName := stackFileName et stackData.name
  let fileContent :=
    stackFileContent env et stackData.stackFileContent stackData.registryCredentials
  let commit := fun (evs : List Event) (stack : EdgeStack) =>
    let stack := { stack with
      name := stackData.name
      registryCredentials := stackData.registryCredentials
      status := EdgeStackStatus.pending
      version := stackData.version
      prePullImage := stackData.prePullImage
      rePullImage := stackData.rePullImage
      fileFolder := folder
      fileName := fileName }
    (tableSet tbl stackData.id stack, evs, (none : Option String))
  let afterWrite := fun (evs : List Event) =>
    match tableGet tbl stackData.id with
    | some stack =>
        if del then commit evs { stack with action := EdgeStackAction.delete }
        else if stack.version = stackData.version then (tbl, evs, none)
        else commit evs { stack with action := EdgeStackAction.update }
    | none =>
        commit evs { newEdgeStack stackData.id stackData.version with
          action := EdgeStackAction.deploy
          status := EdgeStackStatus.pending }
  if del then afterWrite []
  else
    match env.writeFile folder fileName fileContent with
    | some e => (tbl, [], some e)
    | none => afterWrite [Event.wroteFile folder fileName fileContent]

/-- Recognizer for `deployer.Pull` invocations in an event trace. -/
def isPullEvent : Event → Bool
  | Event.pull _ _ => true
  | _ => false

/-- One iteration of the worker loop (source lines 221-250) specialized to a
table holding a single stack whose `Pull` invocations always fail and whose
`Deploy` invocations succeed: a `Pending` stack with action `Deploy`/`Update`
goes through `pullImages`/`deployStack`; otherwise `nextPendingStack` returns
`nil` after promoting a `Retry` record to `Pending`, and the worker sleeps.
A `Pending` record with action `Delete` would go through `deleteStack`, which
never invokes `Pull`; it is modelled as inert here because only `Pull`
invocations are counted.  The returned boolean records whether a real
`deployer.Pull` call happened. -/
def pullLoopStep (s : EdgeStack) : EdgeStack × Bool :=
  if s.status = EdgeStackStatus.pending ∧
      (s.action = EdgeStackAction.deploy ∨ s.action = EdgeStackAction.update) then
    let out := workerDeployUpdateIter s "edge_stack" "file" (some "pull failure") none
    (out.1, out.2.any isPullEvent)
  else if s.status = EdgeStackStatus.retry then
    ({ s with status := EdgeStackStatus.pending }, false)
  else (s, false)

/-- Run `n` worker iterations of `pullLoopStep`, counting the real
`deployer.Pull` invocations. -/
def pullLoopRun : Nat → EdgeStack → EdgeStack × Nat
  | 0, s => (s, 0)
  | n + 1, s =>
      match pullLoopStep s with
      | (s', b) =>
          match pullLoopRun n s' with
          | (s'', c) => (s'', (if b then 1 else 0) + c)

/-- Ceiling division, for the spec's retry bound. -/
def ceilDiv (a b : Nat) : Nat := (a + b - 1) / b

/-- The steps the background worker (source lines 220-251) performs on the
stack table, each taken atomically: the promotion sweep of
`nextPendingStack`, a pull/deploy iteration on a selected `Pending` record
with action `Deploy` or `Update` (committed by the in-place pointer writes
and `manager.stacks[stack.ID] = stack`), and a delete iteration on a
selected `Pending` record with action `Delete`. -/
inductive WorkerStep : StackTable → StackTable → Prop
  | promote (tbl : StackTable) : WorkerStep tbl (promoteRetries tbl)
  | pullDeploy (tbl : StackTable) (stackID : Int) (stack : EdgeStack)
      (stackName stackFileLocation : String) (pullErr deployErr : Option String) :
      tableGet tbl stackID = some stack →
      stack.status = EdgeStackStatus.pending →
      (stack.action = EdgeStackAction.deploy ∨ stack.action = EdgeStackAction.update) →
      WorkerStep tbl
        (tableSet tbl stackID
          (workerDeployUpdateIter stack stackName stackFileLocation pullErr deployErr).1)
  | delete (tbl : StackTable) (stackID : Int) (stack : EdgeStack)
      (stackName stackFileLocation : String)
      (removeErr removeDirErr deleteStatusErr : Option String) :
      tableGet tbl stackID = some stack →
      stack.status = EdgeStackStatus.pending →
      stack.action = EdgeStackAction.delete →
      WorkerStep tbl
        (deleteStack tbl stack stackName stackFileLocation
          removeErr removeDirErr deleteStatusErr).1

/-- All operations that mutate the stack table: worker steps, reconciler
snapshots (`UpdateStacksStatus`, atomic under the manager mutex) and the
out-of-band `buildDeployerParams` entry point. -/
inductive MgrStep : StackTable → StackTable → Prop
  | worker {tbl tbl' : StackTable} (ws : WorkerStep tbl tbl') : MgrStep tbl tbl'
  | updateStacks {tbl : StackTable} (env : Env) (et : EngineType)
      (isEnabled : Bool) (snap : List (Int × Int)) :
      MgrStep tbl (UpdateStacksStatus env et isEnabled tbl snap).1
  | buildParams {tbl : StackTable} (env : Env) (et : EngineType)
      (stackData : EdgeStackData) (del : Bool) :
      MgrStep tbl (buildDeployerParams env et tbl stackData del).1

/-- Stack tables reachable from the empty table created by
`NewStackManager`. -/
inductive ReachableTable : StackTable → Prop
  | init : ReachableTable []
  | step (tbl tbl' : StackTable) :
      ReachableTable tbl → MgrStep tbl tbl' → ReachableTable tbl'

/-- The lifecycle state of the manager: `isEnabled`, whether `stopSignal` is
a live (non-nil) channel, and whether the worker goroutine was launched. -/
structure ManagerLifecycle where
  isEnabled : Bool
  stopSignalOpen : Bool
  workerLaunched : Bool
deriving DecidableEq, Repr

/-- `Start` (source lines 207-254).  `parse` is the result of
`time.ParseDuration(agent.EdgeStackQueueSleepInterval)`; the `go func`
launch is modelled by the `workerLaunched` flag. -/
def Start (parse : Except String Unit) (m : ManagerLifecycle) :
    ManagerLifecycle × Option String :=
  if m.stopSignalOpen then (m, none)
  else
    let m := { m with isEnabled := true, stopSignalOpen := true }
    match parse with
    | Except.error e => (m, some e)
    | Except.ok _ => ({ m with workerLaunched := true }, none)

/-- `Stop` (source lines 197-205). -/
def Stop (m : ManagerLifecycle) : ManagerLifecycle × Option String :=
  if m.stopSignalOpen then
    ({ m with stopSignalOpen := false, isEnabled := false }, none)
  else (m, none)

/-! ### Basic lemmas about the table operations -/

theorem tableGet_tableSet_self (tbl : StackTable) (k : Int) (v : EdgeStack) :
    tableGet (tableSet tbl k v) k = some v := by
  induction tbl with
  | nil => simp [tableSet, tableGet]
  | cons p t ih =>
      by_cases h : p.1 = k
      · simp [tableSet, tableGet, h]
      · simp [tableSet, tableGet, h, ih]

theorem tableGet_tableSet_ne (tbl : StackTable) (k k' : Int) (v : EdgeStack)
    (h : k ≠ k') : tableGet (tableSet tbl k v) k' = tableGet tbl k' := by
  induction tbl with
  | nil => simp [tableSet, tableGet, h]
  | cons p t ih =>
      by_cases hp : p.1 = k
      · simp [tableSet, tableGet, hp, h]
      · simp [tableSet, tableGet, hp, ih]

theorem tableSet_tableSet (tbl : StackTable) (k : Int) (a b : EdgeStack) :
    tableSet (tableSet tbl k a) k b = tableSet tbl k b := by
  induction tbl with
  | nil => simp [tableSet]
  | cons p t ih =>
      by_cases hp : p.1 = k
      · simp [tableSet, hp]
      · simp [tableSet, hp, ih]

theorem mem_tableSet (tbl : StackTable) (k : Int) (v : EdgeStack)
    (p : Int × EdgeStack) (h : p ∈ tableSet tbl k v) : p = (k, v) ∨ p ∈ tbl := by
  induction tbl with
  | nil => simpa [tableSet] using h
  | cons q t ih =>
      by_cases hq : q.1 = k
      · simp only [tableSet, if_pos hq, List.mem_cons] at h
        rcases h with h | h
        · exact Or.inl h
        · exact Or.inr (List.mem_cons_of_mem _ h)
      · simp only [tableSet, if_neg hq, List.mem_cons] at h
        rcases h with h | h
        · exact Or.inr (h ▸ List.mem_cons_self _ _)
        · rcases ih h with h' | h'
          · exact Or.inl h'
          · exact Or.inr (List.mem_cons_of_mem _ h')

theorem mem_tableDel (tbl : StackTable) (k : Int)
    (p : Int × EdgeStack) (h : p ∈ tableDel tbl k) : p ∈ tbl := by
  induction tbl with
  | nil => simp [tableDel] at h
  | cons q t ih =>
      by_cases hq : q.1 = k
      · simp only [tableDel, if_pos hq] at h
        exact List.mem_cons_of_mem _ h
      · simp only [tableDel, if_neg hq, List.mem_cons] at h
        rcases h with h | h
        · exact h ▸ List.mem_cons_self _ _
        · exact List.mem_cons_of_mem _ (ih h)

theorem tableGet_tableDel_ne (tbl : StackTable) (k k' : Int) (h : k ≠ k') :
    tableGet (tableDel tbl k) k' = tableGet tbl k' := by
  induction tbl with
  | nil => simp [tableDel]
  | cons p t ih =>
      by_cases hp : p.1 = k
      · have hp' : p.1 ≠ k' := by rw [hp]; exact h
        simp [tableDel, tableGet, hp, hp', h]
      · simp [tableDel, tableGet, hp, ih]

theorem tableGet_map (f : Int → EdgeStack → EdgeStack) (tbl : StackTable) (k : Int) :
    tableGet (tbl.map fun p => (p.1, f p.1 p.2)) k = (tableGet tbl k).map (f k) := by
  induction tbl with
  | nil => simp [tableGet]
  | cons p t ih =>
      by_cases hp : p.1 = k
      · simp [tableGet, hp]
      · simp [tableGet, hp, ih]

theorem tableGet_promoteRetries (tbl : StackTable) (k : Int) :
    tableGet (promoteRetries tbl) k =
      (tableGet tbl k).map fun s =>
        if s.status = EdgeStackStatus.retry then
          { s with status := EdgeStackStatus.pending }
        else s :=
  tableGet_map (fun _ s =>
    if s.status = EdgeStackStatus.retry then
      { s with status := EdgeStackStatus.pending }
    else s) tbl k

theorem tableGet_processRemovedStacks (snap : List (Int × Int))
    (tbl : StackTable) (k : Int) :
    tableGet (processRemovedStacks snap tbl) k =
      (tableGet tbl k).map fun s =>
        if snapMember snap k then s
        else { s with
          action := EdgeStackAction.delete
          status := EdgeStackStatus.pending } :=
  tableGet_map (fun k' s =>
    if snapMember snap k' then s
    else { s with
      action := EdgeStackAction.delete
      status := EdgeStackStatus.pending }) tbl k

/-! ### Concrete fixtures used by the witnesses -/

/-- A sample coordinator configuration. -/
def cfgW : StackConfig :=
  { name := "web", fileContent := "services:", registryCredentials := [],
    nameSpace := "", prePullImage := true, rePullImage := false }

/-- A sample environment: the fetch fails for stack id 2 and succeeds
elsewhere, every write and status report succeeds. -/
def envW : Env :=
  { getEdgeStackConfig := fun i => if i = 2 then Except.error "boom" else Except.ok cfgW,
    setEdgeStackStatus := fun _ _ _ => none,
    deleteEdgeStackStatus := fun _ => none,
    writeFile := fun _ _ _ => none,
    addImagePullSecrets := fun c _ => c }

/-- A sample pending stack with the pre-pull flag set. -/
def stack0 : EdgeStack :=
  { id := 7, name := "web", version := 1, fileFolder := "/data/edge_stacks/7",
    fileName := "docker-compose.yml", status := EdgeStackStatus.pending,
    action := EdgeStackAction.deploy, registryCredentials := [], nameSpace := "",
    prePullImage := true, rePullImage := false, retries := 0 }

/-- A sample stack marked for deletion. -/
def stackDel : EdgeStack :=
  { stack0 with
    id := 8
    status := EdgeStackStatus.pending
    action := EdgeStackAction.delete }

/-! ### C4: manifest filename law -/

/-- The manifest filename law exactly as the spec states it (§4.3):
DockerStandalone/DockerSwarm get `docker-compose.yml`, Kubernetes gets
`<stack_name>.yml`, Nomad gets `<stack_name>.hcl`. -/
def manifestFileNameLaw : EngineType → String → String
  | EngineType.dockerStandalone, _ => "docker-compose.yml"
  | EngineType.dockerSwarm, _ => "docker-compose.yml"
  | EngineType.kubernetes, name => name ++ ".yml"
  | EngineType.nomad, name => name ++ ".hcl"

theorem stackFileName_eq_law (et : EngineType) (name : String) :
    stackFileName et name = manifestFileNameLaw et name := by
  cases et <;> rfl

/-- Every manifest write performed by `processStackRest` targets the folder
`<edge_stack_root>/<stack_id>` and the engine/name-determined filename. -/
theorem wroteFile_processStackRest (env : Env) (et : EngineType)
    (tbl : StackTable) (stackID : Int) (stack : EdgeStack) (inTable : Bool)
    (f n c : String)
    (hmem : Event.wroteFile f n c ∈
      (processStackRest env et tbl stackID stack inTable).2.1) :
    ∃ cfg, env.getEdgeStackConfig stackID = Except.ok cfg ∧
      f = stackFolder stackID ∧ n = stackFileName et cfg.name := by
  cases hcfg : env.getEdgeStackConfig stackID with
  | error e =>
      simp only [processStackRest, hcfg] at hmem
      simp at hmem
  | ok cfg =>
      simp only [processStackRest, hcfg] at hmem
      split at hmem
      · simp at hmem
      · simp only [List.mem_cons, List.not_mem_nil, or_false] at hmem
        rcases hmem with h | h
        · simp only [Event.wroteFile.injEq] at h
          exact ⟨cfg, rfl, h.1, h.2.1⟩
        · simp at h

/-- Every manifest write performed by `buildDeployerParams` targets the
folder `<edge_stack_root>/<stack_id>` and the engine/name-determined
filename. -/
theorem wroteFile_buildDeployerParams (env : Env) (et : EngineType)
    (tbl : StackTable) (stackData : EdgeStackData) (del : Bool)
    (f n c : String)
    (hmem : Event.wroteFile f n c ∈
      (buildDeployerParams env et tbl stackData del).2.1) :
    f = stackFolder stackData.id ∧ n = stackFileName et stackData.name := by
  simp only [buildDeployerParams] at hmem
  split at hmem
  all_goals try split at hmem
  all_goals try split at hmem
  all_goals try split at hmem
  all_goals simp_all [Event.wroteFile.injEq]

/-- C4: for every stack materialized by the manager (through the reconciler's
`processStack` or the out-of-band `buildDeployerParams`), the manifest
filename is determined solely by engine kind and stack name —
`docker-compose.yml` for DockerStandalone and DockerSwarm,
`<stack_name>.yml` for Kubernetes, `<stack_name>.hcl` for Nomad — and the
file folder is `<edge_stack_root>/<stack_id>`. -/
theorem C4_manifest_filename_law (env : Env) (et : EngineType)
    (tbl : StackTable) (f n c : String) :
    (∀ name, stackFileName et name = manifestFileNameLaw et name) ∧
    (∀ stackID version cfg, env.getEdgeStackConfig stackID = Except.ok cfg →
      Event.wroteFile f n c ∈ (processStack env et tbl stackID version).2.1 →
      f = EdgeStackFilesPath ++ "/" ++ toString stackID ∧
      n = manifestFileNameLaw et cfg.name) ∧
    (∀ stackData del,
      Event.wroteFile f n c ∈ (buildDeployerParams env et tbl stackData del).2.1 →
      f = EdgeStackFilesPath ++ "/" ++ toString stackData.id ∧
      n = manifestFileNameLaw et stackData.name) := by
  refine ⟨fun name => stackFileName_eq_law et name, ?_, ?_⟩
  · intro stackID version cfg hcfg hmem
    have hrest : ∃ cfg', env.getEdgeStackConfig stackID = Except.ok cfg' ∧
        f = stackFolder stackID ∧ n = stackFileName et cfg'.name := by
      unfold processStack at hmem
      split at hmem
      · split at hmem
        · simp at hmem
        · exact wroteFile_processStackRest _ _ _ _ _ _ _ _ _ hmem
      · exact wroteFile_processStackRest _ _ _ _ _ _ _ _ _ hmem
    rcases hrest with ⟨cfg', hcfg', hf, hn⟩
    rw [hcfg] at hcfg'
    cases hcfg'
    exact ⟨hf, hn.trans (stackFileName_eq_law et _)⟩
  · intro stackData del hmem
    rcases wroteFile_buildDeployerParams _ _ _ _ _ _ _ _ hmem with ⟨hf, hn⟩
    exact ⟨hf, hn.trans (stackFileName_eq_law et _)⟩

/-- Witness for C4 at a concrete Kubernetes deployment. -/
theorem C4_manifest_filename_law_witness :
    "/data/edge_stacks/7" = EdgeStackFilesPath ++ "/" ++ toString (7 : Int) ∧
    "web.yml" = manifestFileNameLaw EngineType.kubernetes cfgW.name :=
  (C4_manifest_filename_law envW EngineType.kubernetes []
      "/data/edge_stacks/7" "web.yml" "services:").2.1 7 1 cfgW (by rfl)
    (by decide)

/-! ### C7: delete is all-or-nothing -/

/-- C7: when the worker processes a stack with action `Delete`, the record is
removed from the table only when the deployer `Remove`, the recursive removal
of the manifest directory, and the coordinator status deletion all succeed,
in that order; if any of the three fails the table is left unchanged. -/
theorem C7_delete_all_or_nothing (tbl : StackTable) (stack : EdgeStack)
    (sn sl : String) (removeErr removeDirErr deleteStatusErr : Option String) :
    (removeErr = none → removeDirErr = none → deleteStatusErr = none →
      deleteStack tbl stack sn sl removeErr removeDirErr deleteStatusErr =
        (tableDel tbl stack.id,
         [Event.remove sn [sl], Event.removeDir (filepathDir sl),
          Event.deleteStatus stack.id])) ∧
    (removeErr ≠ none ∨ removeDirErr ≠ none ∨ deleteStatusErr ≠ none →
      (deleteStack tbl stack sn sl removeErr removeDirErr deleteStatusErr).1 =
        tbl) := by
  constructor
  · intro h1 h2 h3
    subst h1; subst h2; subst h3
    rfl
  · intro h
    cases removeErr with
    | some e => rfl
    | none =>
        cases removeDirErr with
        | some e => rfl
        | none =>
            cases deleteStatusErr with
            | some e => rfl
            | none => simp at h

/-- Witness for C7: a successful delete removes the record, a failing
`Remove` leaves the table unchanged. -/
theorem C7_delete_all_or_nothing_witness :
    deleteStack [(8, stackDel)] stackDel "edge_web" "/data/edge_stacks/8/docker-compose.yml"
        none none none =
      (tableDel [(8, stackDel)] stackDel.id,
       [Event.remove "edge_web" ["/data/edge_stacks/8/docker-compose.yml"],
        Event.removeDir (filepathDir "/data/edge_stacks/8/docker-compose.yml"),
        Event.deleteStatus stackDel.id]) ∧
    (deleteStack [(8, stackDel)] stackDel "edge_web" "/data/edge_stacks/8/docker-compose.yml"
        (some "remove failed") none none).1 = [(8, stackDel)] :=
  ⟨(C7_delete_all_or_nothing [(8, stackDel)] stackDel "edge_web"
      "/data/edge_stacks/8/docker-compose.yml" none none none).1 rfl rfl rfl,
   (C7_delete_all_or_nothing [(8, stackDel)] stackDel "edge_web"
      "/data/edge_stacks/8/docker-compose.yml" (some "remove failed") none none).2
     (Or.inl (by simp))⟩

/-! ### C8: credential query exclusivity -/

/-- C8: `GetEdgeRegistryCredentials` returns a non-empty list only when some
record has status `Deploying`, in which case it returns the credentials of a
record with status `Deploying`; with no `Deploying` record it returns none
(`nil`, modelled as `[]`). -/
theorem C8_credential_query_exclusivity (tbl : StackTable) :
    (GetEdgeRegistryCredentials tbl ≠ [] →
      ∃ p ∈ tbl, p.2.status = EdgeStackStatus.deploying ∧
        GetEdgeRegistryCredentials tbl = p.2.registryCredentials) ∧
    ((∃ p ∈ tbl, p.2.status = EdgeStackStatus.deploying) →
      ∃ p ∈ tbl, p.2.status = EdgeStackStatus.deploying ∧
        GetEdgeRegistryCredentials tbl = p.2.registryCredentials) ∧
    ((∀ p ∈ tbl, p.2.status ≠ EdgeStackStatus.deploying) →
      GetEdgeRegistryCredentials tbl = []) := by
  cases hfind : tbl.find? fun p => p.2.status = EdgeStackStatus.deploying with
  | some p =>
      have hp : p.2.status = EdgeStackStatus.deploying := by
        have := List.find?_some hfind
        simpa using this
      have hmem : p ∈ tbl := List.mem_of_find?_eq_some hfind
      have hval : GetEdgeRegistryCredentials tbl = p.2.registryCredentials := by
        simp [GetEdgeRegistryCredentials, hfind]
      exact ⟨fun _ => ⟨p, hmem, hp, hval⟩, fun _ => ⟨p, hmem, hp, hval⟩,
        fun hall => absurd hp (hall p hmem)⟩
  | none =>
      have hnone : GetEdgeRegistryCredentials tbl = [] := by
        simp [GetEdgeRegistryCredentials, hfind]
      have hall : ∀ p ∈ tbl, p.2.status ≠ EdgeStackStatus.deploying := by
        intro p hp
        have := List.find?_eq_none.mp hfind p hp
        simpa using this
      exact ⟨fun hne => absurd hnone hne,
        fun ⟨p, hp, hdep⟩ => absurd hdep (hall p hp),
        fun _ => hnone⟩

/-- Witness for C8 on a concrete table with one deploying record. -/
theorem C8_credential_query_exclusivity_witness :
    ∃ p ∈ ([((7 : Int), { stack0 with status := EdgeStackStatus.deploying })] : StackTable),
      p.2.status = EdgeStackStatus.deploying ∧
      GetEdgeRegistryCredentials
          [((7 : Int), { stack0 with status := EdgeStackStatus.deploying })] =
        p.2.registryCredentials :=
  (C8_credential_query_exclusivity
      [((7 : Int), { stack0 with status := EdgeStackStatus.deploying })]).2.1
    ⟨((7 : Int), { stack0 with status := EdgeStackStatus.deploying }), by decide, by decide⟩

/-! ### C10: Start with a failing interval parse -/

/-- C10: calling `Start` while the manager is not running, with a failing
queue-sleep-interval parse, returns the parse error but has already marked
the manager enabled and opened its stop channel; no worker is launched, a
subsequent `Start` returns `nil` without launching one, and
`UpdateStacksStatus` calls are no longer no-ops (the `isEnabled` guard no
longer short-circuits). -/
theorem C10_start_parse_failure (m : ManagerLifecycle) (e : String)
    (hrun : m.stopSignalOpen = false) (hworker : m.workerLaunched = false) :
    (Start (Except.error e) m).2 = some e ∧
    (Start (Except.error e) m).1.isEnabled = true ∧
    (Start (Except.error e) m).1.stopSignalOpen = true ∧
    (Start (Except.error e) m).1.workerLaunched = false ∧
    (∀ parse, Start parse (Start (Except.error e) m).1 =
      ((Start (Except.error e) m).1, none)) ∧
    (∀ env et tbl snap,
      UpdateStacksStatus env et (Start (Except.error e) m).1.isEnabled tbl snap =
        UpdateStacksStatus env et true tbl snap) := by
  have hstart : Start (Except.error e) m =
      ({ m with isEnabled := true, stopSignalOpen := true }, some e) := by
    simp [Start, hrun]
  refine ⟨?_, ?_, ?_, ?_, ?_, ?_⟩
  · rw [hstart]
  · rw [hstart]
  · rw [hstart]
  · rw [hstart]; exact hworker
  · intro parse; rw [hstart]; simp [Start]
  · intro env et tbl snap; rw [hstart]

/-- Witness for C10 at the freshly constructed manager state. -/
theorem C10_start_parse_failure_witness :
    (Start (Except.error "bad interval")
        { isEnabled := false, stopSignalOpen := false, workerLaunched := false }).2 =
      some "bad interval" ∧
    (Start (Except.error "bad interval")
        { isEnabled := false, stopSignalOpen := false, workerLaunched := false }).1.isEnabled =
      true :=
  let h := C10_start_parse_failure
    { isEnabled := false, stopSignalOpen := false, workerLaunched := false }
    "bad interval" rfl rfl
  ⟨h.1, h.2.1⟩

/-! ### C2: pull phase of the worker -/

/-- C2: in the worker's pull phase with `pre_pull_image ∨ re_pull_image` set,
the retries counter is incremented; a real `Pull` is attempted exactly when
`retries ≤ RetryInterval ∨ retries % RetryInterval = 0` (for the incremented
value); a failed attempt with `retries < MaxRetries` sets status `Retry` and
skips deploy; a failed attempt with `retries ≥ MaxRetries` sets status
`Error`, reports `Error` with the error string, and skips deploy; a
throttled attempt skips deploy with no report at all. -/
theorem C2_pull_phase (stack : EdgeStack) (sn sl : String)
    (pullErr deployErr : Option String)
    (hflags : (stack.prePullImage || stack.rePullImage) = true) :
    ((workerDeployUpdateIter stack sn sl pullErr deployErr).1.retries =
      stack.retries + 1) ∧
    (Event.pull sn [sl] ∈ (workerDeployUpdateIter stack sn sl pullErr deployErr).2 ↔
      (stack.retries + 1 ≤ RetryInterval ∨ (stack.retries + 1) % RetryInterval = 0)) ∧
    (∀ e, pullErr = some e →
      (stack.retries + 1 ≤ RetryInterval ∨ (stack.retries + 1) % RetryInterval = 0) →
      stack.retries + 1 < MaxRetries →
      (workerDeployUpdateIter stack sn sl pullErr deployErr).1.status =
        EdgeStackStatus.retry ∧
      (∀ nm fs ns, Event.deploy nm fs ns ∉
        (workerDeployUpdateIter stack sn sl pullErr deployErr).2)) ∧
    (∀ e, pullErr = some e →
      (stack.retries + 1 ≤ RetryInterval ∨ (stack.retries + 1) % RetryInterval = 0) →
      MaxRetries ≤ stack.retries + 1 →
      (workerDeployUpdateIter stack sn sl pullErr deployErr).1.status =
        EdgeStackStatus.error ∧
      Event.setStatus stack.id PortainerStatus.error e ∈
        (workerDeployUpdateIter stack sn sl pullErr deployErr).2 ∧
      (∀ nm fs ns, Event.deploy nm fs ns ∉
        (workerDeployUpdateIter stack sn sl pullErr deployErr).2)) ∧
    (¬(stack.retries + 1 ≤ RetryInterval ∨ (stack.retries + 1) % RetryInterval = 0) →
      (workerDeployUpdateIter stack sn sl pullErr deployErr).2 = []) := by
  by_cases hc : (stack.retries + 1 ≤ RetryInterval ∨
      (stack.retries + 1) % RetryInterval = 0)
  · cases pullErr with
    | none =>
        cases deployErr <;>
          simp [workerDeployUpdateIter, pullImages, deployStack, hflags, hc]
    | some e =>
        by_cases hmax : stack.retries + 1 < MaxRetries
        · have hmax' : ¬ MaxRetries ≤ stack.retries + 1 := by omega
          simp [workerDeployUpdateIter, pullImages, hflags, hc, hmax, hmax']
        · have hmax' : MaxRetries ≤ stack.retries + 1 := by omega
          simp [workerDeployUpdateIter, pullImages, hflags, hc, hmax, hmax']
  · cases pullErr <;>
      simp [workerDeployUpdateIter, pullImages, hflags, hc]

/-- Witness for C2: a first failing pull on a fresh stack ends in `Retry`. -/
theorem C2_pull_phase_witness :
    (workerDeployUpdateIter stack0 "edge_web" "loc" (some "pull failed") none).1.status =
      EdgeStackStatus.retry ∧
    (∀ nm fs ns, Event.deploy nm fs ns ∉
      (workerDeployUpdateIter stack0 "edge_web" "loc" (some "pull failed") none).2) :=
  (C2_pull_phase stack0 "edge_web" "loc" (some "pull failed") none rfl).2.2.1
    "pull failed" rfl (by decide) (by decide)

/-! ### C1: reconciler entry processing -/

/-- The record `processStack` commits for a previously unknown stack id:
action `Deploy`, status `Pending`, the given version, and the fetched
configuration. -/
def deployedRecord (et : EngineType) (stackID version : Int)
    (cfg : StackConfig) : EdgeStack :=
  { id := stackID
    name := cfg.name
    version := version
    fileFolder := stackFolder stackID
    fileName := stackFileName et cfg.name
    status := EdgeStackStatus.pending
    action := EdgeStackAction.deploy
    registryCredentials := cfg.registryCredentials
    nameSpace := cfg.nameSpace
    prePullImage := cfg.prePullImage
    rePullImage := cfg.rePullImage
    retries := 0 }

/-- The record `processStack` commits for a known stack id whose version
changed: action `Update`, status `Pending`, the new version, refreshed
configuration; `id` and `retries` are preserved. -/
def updatedRecord (et : EngineType) (stackID : Int) (st : EdgeStack)
    (version : Int) (cfg : StackConfig) : EdgeStack :=
  { st with
    action := EdgeStackAction.update
    version := version
    status := EdgeStackStatus.pending
    name := cfg.name
    registryCredentials := cfg.registryCredentials
    nameSpace := cfg.nameSpace
    prePullImage := cfg.prePullImage
    rePullImage := cfg.rePullImage
    fileFolder := stackFolder stackID
    fileName := stackFileName et cfg.name }

/-- The events `processStack` emits on its success path: the manifest write
and the `Acknowledged` report. -/
def ackEvents (env : Env) (et : EngineType) (stackID : Int)
    (cfg : StackConfig) : List Event :=
  [Event.wroteFile (stackFolder stackID) (stackFileName et cfg.name)
     (stackFileContent env et cfg.fileContent cfg.registryCredentials),
   Event.setStatus stackID PortainerStatus.acknowledged ""]

/-- C1: for a snapshot entry (stack id, version), when the configuration
fetch and the manifest write succeed: an unknown id gets a new record with
action `Deploy`, status `Pending` and the given version, its configuration
fetched, its manifest written, the record inserted and `Acknowledged`
reported; a known id with equal version changes nothing; a known id with a
different version has its record turned into action `Update`, status
`Pending`, the new version, a refetched config, a rewritten manifest, and
`Acknowledged` reported.  (`UpdateStacksStatus` invokes `processStack` on
every snapshot entry exactly when the manager is enabled.) -/
theorem C1_process_stack (env : Env) (et : EngineType) (tbl : StackTable)
    (stackID version : Int) (cfg : StackConfig)
    (hfetch : env.getEdgeStackConfig stackID = Except.ok cfg)
    (hwrite : ∀ f n c, env.writeFile f n c = none) :
    (tableGet tbl stackID = none →
      processStack env et tbl stackID version =
        (tableSet tbl stackID (deployedRecord et stackID version cfg),
         ackEvents env et stackID cfg,
         env.setEdgeStackStatus stackID PortainerStatus.acknowledged "")) ∧
    (∀ st, tableGet tbl stackID = some st → st.version = version →
      processStack env et tbl stackID version = (tbl, [], none)) ∧
    (∀ st, tableGet tbl stackID = some st → st.version ≠ version →
      processStack env et tbl stackID version =
        (tableSet tbl stackID (updatedRecord et stackID st version cfg),
         ackEvents env et stackID cfg,
         env.setEdgeStackStatus stackID PortainerStatus.acknowledged "")) := by
  refine ⟨?_, ?_, ?_⟩
  · intro hnone
    simp [processStack, hnone, processStackRest, hfetch, hwrite,
      deployedRecord, ackEvents, newEdgeStack]
  · intro st hsome hv
    simp [processStack, hsome, hv]
  · intro st hsome hv
    simp [processStack, hsome, hv, processStackRest, hfetch, hwrite,
      tableSet_tableSet, updatedRecord, ackEvents]

/-- Witness for C1: a fresh stack id 7, version 1. -/
theorem C1_process_stack_witness :
    processStack envW EngineType.dockerStandalone [] 7 1 =
      (tableSet [] 7 (deployedRecord EngineType.dockerStandalone 7 1 cfgW),
       ackEvents envW EngineType.dockerStandalone 7 cfgW,
       envW.setEdgeStackStatus 7 PortainerStatus.acknowledged "") :=
  (C1_process_stack envW EngineType.dockerStandalone [] 7 1 cfgW rfl
      (fun _ _ _ => rfl)).1 rfl

/-! ### C6: snapshot abort on fetch / write errors -/

/-- Splitting the snapshot loop at the first failing entry: the prefix `l1`
commits all its effects, the failing entry contributes its partial effects
and its error, and nothing after it runs. -/
theorem processStacksList_append_fail (env : Env) (et : EngineType) :
    ∀ (l1 : List (Int × Int)) (tbl : StackTable) (l2 : List (Int × Int))
      (k v : Int) (err : String),
    (processStacksList env et tbl l1).2.2 = none →
    (processStack env et (processStacksList env et tbl l1).1 k v).2.2 = some err →
    processStacksList env et tbl (l1 ++ (k, v) :: l2) =
      ((processStack env et (processStacksList env et tbl l1).1 k v).1,
       (processStacksList env et tbl l1).2.1 ++
         (processStack env et (processStacksList env et tbl l1).1 k v).2.1,
       some err) := by
  intro l1
  induction l1 with
  | nil =>
      intro tbl l2 k v err h1 h2
      simp only [processStacksList] at h2
      rcases hps : processStack env et tbl k v with ⟨t', evs', r'⟩
      rw [hps] at h2
      simp only at h2
      subst h2
      simp [processStacksList, hps]
  | cons p l1 ih =>
      rcases p with ⟨a, b⟩
      intro tbl l2 k v err h1 h2
      rcases hp : processStack env et tbl a b with ⟨t1, e1, r1⟩
      cases r1 with
      | some e =>
          exfalso
          simp only [processStacksList, hp] at h1
          rcases hq : processStacksList env et t1 l1 with ⟨x, y, z⟩
          simp at h1
      | none =>
          have hrec1 : processStacksList env et tbl ((a, b) :: l1) =
              ((processStacksList env et t1 l1).1,
               e1 ++ (processStacksList env et t1 l1).2.1,
               (processStacksList env et t1 l1).2.2) := by
            rcases hq : processStacksList env et t1 l1 with ⟨x, y, z⟩
            simp [processStacksList, hp, hq]
          rw [hrec1] at h1 h2
          simp only at h1 h2
          have hih := ih t1 l2 k v err h1 h2
          have hrec2 : processStacksList env et tbl
              ((a, b) :: (l1 ++ (k, v) :: l2)) =
              ((processStacksList env et t1 (l1 ++ (k, v) :: l2)).1,
               e1 ++ (processStacksList env et t1 (l1 ++ (k, v) :: l2)).2.1,
               (processStacksList env et t1 (l1 ++ (k, v) :: l2)).2.2) := by
            rcases hq : processStacksList env et t1 (l1 ++ (k, v) :: l2) with ⟨x, y, z⟩
            simp [processStacksList, hp, hq]
          rw [List.cons_append, hrec2, hih, hrec1]
          simp

/-- C6: if the coordinator fetch or the manifest write fails for a snapshot
entry (any `processStack` error), `UpdateStacksStatus` returns that error
unmodified and stops: the entries processed before the failing one have all
their effects committed (they appear in the resulting table and event
trace), the entries after it cause no change, and the pass marking absent
stacks for deletion does not run. -/
theorem C6_snapshot_abort (env : Env) (et : EngineType) (tbl : StackTable)
    (l1 l2 : List (Int × Int)) (k v : Int) (err : String)
    (h1 : (processStacksList env et tbl l1).2.2 = none)
    (h2 : (processStack env et (processStacksList env et tbl l1).1 k v).2.2 =
      some err) :
    UpdateStacksStatus env et true tbl (l1 ++ (k, v) :: l2) =
      ((processStack env et (processStacksList env et tbl l1).1 k v).1,
       (processStacksList env et tbl l1).2.1 ++
         (processStack env et (processStacksList env et tbl l1).1 k v).2.1,
       some err) := by
  have h := processStacksList_append_fail env et l1 tbl l2 k v err h1 h2
  simp [UpdateStacksStatus, h]

/-- Witness for C6: entry (1, 1) succeeds, entry (2, 5) fails with "boom". -/
theorem C6_snapshot_abort_witness :
    UpdateStacksStatus envW EngineType.dockerStandalone true []
        ([(1, 1)] ++ (2, 5) :: [(3, 1)]) =
      ((processStack envW EngineType.dockerStandalone
          (processStacksList envW EngineType.dockerStandalone [] [(1, 1)]).1 2 5).1,
       (processStacksList envW EngineType.dockerStandalone [] [(1, 1)]).2.1 ++
         (processStack envW EngineType.dockerStandalone
           (processStacksList envW EngineType.dockerStandalone [] [(1, 1)]).1 2 5).2.1,
       some "boom") :=
  C6_snapshot_abort envW EngineType.dockerStandalone [] [(1, 1)] [(3, 1)] 2 5
    "boom" rfl rfl

/-! ### C3: absence implies deletion -/

/-- C3: after a snapshot is processed without error, every tabled record
whose id is absent from the snapshot has action `Delete` and status
`Pending`; and a record with action `Delete` keeps that action across every
worker step until the step that completes its removal deletes it from the
table. -/
theorem C3_absence_implies_deletion :
    (∀ (env : Env) (et : EngineType) (tbl : StackTable)
       (snap : List (Int × Int)),
      (UpdateStacksStatus env et true tbl snap).2.2 = none →
      ∀ p ∈ (UpdateStacksStatus env et true tbl snap).1,
        snapMember snap p.1 = false →
        p.2.action = EdgeStackAction.delete ∧
        p.2.status = EdgeStackStatus.pending) ∧
    (∀ (tbl tbl' : StackTable), WorkerStep tbl tbl' →
      ∀ (k : Int) (st : EdgeStack), tableGet tbl k = some st →
      st.action = EdgeStackAction.delete →
      tbl' = tableDel tbl k ∨
        ∃ st', tableGet tbl' k = some st' ∧
          st'.action = EdgeStackAction.delete) := by
  constructor
  · intro env et tbl snap hok p hp habs
    rcases hq : processStacksList env et tbl snap with ⟨t', evs, r⟩
    simp only [UpdateStacksStatus, Bool.not_true, Bool.false_eq_true, if_false,
      hq] at hok hp
    cases r with
    | some e => simp at hok
    | none =>
        simp only [processRemovedStacks] at hp
        rcases List.mem_map.mp hp with ⟨q, hq2, rfl⟩
        simp only at habs
        simp [habs]
  · intro tbl tbl' hstep k st hget hact
    cases hstep with
    | promote =>
        right
        rw [tableGet_promoteRetries, hget]
        refine ⟨_, rfl, ?_⟩
        by_cases hs : st.status = EdgeStackStatus.retry <;> simp [hs, hact]
    | pullDeploy stackID stack sn sl pe de hgid hst hact2 =>
        right
        have hne : stackID ≠ k := by
          intro h
          subst h
          rw [hget] at hgid
          cases hgid
          rcases hact2 with h2 | h2 <;> rw [hact] at h2 <;> exact absurd h2 (by simp)
        exact ⟨st, by rw [tableGet_tableSet_ne _ stackID k _ hne, hget], hact⟩
    | delete stackID stack sn sl re rde dse hgid hst hact2 =>
        cases re with
        | some e => exact Or.inr ⟨st, by simpa [deleteStack] using hget, hact⟩
        | none =>
            cases rde with
            | some e => exact Or.inr ⟨st, by simpa [deleteStack] using hget, hact⟩
            | none =>
                cases dse with
                | some e =>
                    exact Or.inr ⟨st, by simpa [deleteStack] using hget, hact⟩
                | none =>
                    by_cases hek : stack.id = k
                    · left
                      simp [deleteStack, hek]
                    · right
                      refine ⟨st, ?_, hact⟩
                      simp only [deleteStack]
                      rw [tableGet_tableDel_ne _ stack.id k hek, hget]

/-- Witness for C3: a table holding stack 8 against an empty snapshot. -/
theorem C3_absence_implies_deletion_witness :
    ∀ p ∈ (UpdateStacksStatus envW EngineType.dockerStandalone true
        [((8 : Int), stack0)] []).1,
      snapMember [] p.1 = false →
      p.2.action = EdgeStackAction.delete ∧
      p.2.status = EdgeStackStatus.pending :=
  C3_absence_implies_deletion.1 envW EngineType.dockerStandalone
    [((8 : Int), stack0)] [] rfl

/-! ### C5: retry bound for the pull phase -/

/-- A real pull that fails leaves the stack in status `Retry` or `Error`. -/
theorem pullLoopStep_status_of_pull (s : EdgeStack)
    (h : (pullLoopStep s).2 = true) :
    (pullLoopStep s).1.status = EdgeStackStatus.retry ∨
    (pullLoopStep s).1.status = EdgeStackStatus.error := by
  by_cases h1 : s.status = EdgeStackStatus.pending ∧
      (s.action = EdgeStackAction.deploy ∨ s.action = EdgeStackAction.update)
  · by_cases hf : (s.prePullImage || s.rePullImage) = true
    · by_cases hc : s.retries + 1 ≤ RetryInterval ∨
          (s.retries + 1) % RetryInterval = 0
      · by_cases hm : s.retries + 1 < MaxRetries
        · simp [pullLoopStep, h1, hf, hc, hm, workerDeployUpdateIter, pullImages]
        · simp [pullLoopStep, h1, hf, hc, hm, workerDeployUpdateIter, pullImages]
      · simp [pullLoopStep, h1, hf, hc, workerDeployUpdateIter, pullImages] at h
    · simp [pullLoopStep, h1, hf, workerDeployUpdateIter, pullImages,
        deployStack, isPullEvent] at h
  · by_cases h2 : s.status = EdgeStackStatus.retry <;>
      simp [pullLoopStep, h1, h2] at h

/-- A stack that is not `Pending` performs no pull in the next iteration. -/
theorem pullLoopStep_snd_false (s : EdgeStack)
    (h : s.status ≠ EdgeStackStatus.pending) : (pullLoopStep s).2 = false := by
  have h1 : ¬(s.status = EdgeStackStatus.pending ∧
      (s.action = EdgeStackAction.deploy ∨ s.action = EdgeStackAction.update)) :=
    fun hh => h hh.1
  by_cases h2 : s.status = EdgeStackStatus.retry <;>
    simp [pullLoopStep, h1, h2]

/-- With `Pull` always failing, no two consecutive worker iterations both
perform a real pull. -/
theorem pullLoopStep_no_consecutive (s : EdgeStack)
    (h : (pullLoopStep s).2 = true) :
    (pullLoopStep (pullLoopStep s).1).2 = false := by
  rcases pullLoopStep_status_of_pull s h with hs | hs <;>
    exact pullLoopStep_snd_false _ (by rw [hs]; simp)

theorem pullLoopRun_succ_snd (n : Nat) (s : EdgeStack) :
    (pullLoopRun (n + 1) s).2 =
      (if (pullLoopStep s).2 then 1 else 0) +
        (pullLoopRun n (pullLoopStep s).1).2 := by
  rcases h : pullLoopStep s with ⟨s', b⟩
  rcases h2 : pullLoopRun n s' with ⟨s'', c⟩
  simp [pullLoopRun, h, h2]

/-- With `Pull` always failing, at most `⌊N/2⌋ + 1` real pulls happen over
`N` consecutive worker iterations. -/
theorem pullLoopRun_bound : ∀ (n : Nat) (s : EdgeStack),
    (pullLoopRun n s).2 ≤ n / 2 + 1 := by
  intro n
  induction n using Nat.strong_induction_on with
  | _ n ih =>
      intro s
      rcases n with _ | n1
      · simp [pullLoopRun]
      rcases n1 with _ | m
      · rw [pullLoopRun_succ_snd]
        have h0 : (pullLoopRun 0 (pullLoopStep s).1).2 = 0 := by
          simp [pullLoopRun]
        rw [h0]
        by_cases hb : (pullLoopStep s).2 <;> simp [hb]
      · rw [pullLoopRun_succ_snd, pullLoopRun_succ_snd]
        have h3 := ih m (by omega) (pullLoopStep (pullLoopStep s).1).1
        have hsum : (if (pullLoopStep s).2 then (1 : Nat) else 0) +
            (if (pullLoopStep (pullLoopStep s).1).2 then (1 : Nat) else 0) ≤ 1 := by
          by_cases hb1 : (pullLoopStep s).2
          · have hb2 : (pullLoopStep (pullLoopStep s).1).2 = false :=
              pullLoopStep_no_consecutive s hb1
            simp [hb1, hb2]
          · simp only [if_neg hb1, Nat.zero_add]
            split <;> omega
        omega

/-- C5 counterexample: over `N = 5` consecutive worker iterations, a fresh
always-failing stack with the pre-pull flag set performs 3 real `Pull`
invocations, exceeding the claimed bound `⌈5 / RetryInterval⌉ + 1 = 2`
(the code attempts a real pull on every sweep while `retries ≤
RetryInterval`, throttling to one attempt per `RetryInterval` only
afterwards). -/
theorem C5_retry_bound_counterexample :
    RetryInterval = 720 ∧
    (pullLoopRun 5 stack0).2 = 3 ∧
    ¬((pullLoopRun 5 stack0).2 ≤ ceilDiv 5 RetryInterval + 1) := by
  refine ⟨rfl, by decide, by decide⟩

/-- C5 amended: for any stack whose `Pull` invocations always fail, the
number of actual `Pull` invocations performed over any `N` consecutive
worker iterations is at most `⌈N / 2⌉ + 1` (with `RetryInterval = 720`):
during the initial burst (`retries ≤ RetryInterval`) the failing stack
alternates between a pulling iteration and a `Retry → Pending` promotion
sweep, so at most every other iteration pulls; afterwards pulls are rarer
still. -/
theorem C5_retry_bound_amended (n : Nat) (s : EdgeStack) :
    RetryInterval = 720 ∧ (pullLoopRun n s).2 ≤ ceilDiv n 2 + 1 := by
  refine ⟨rfl, le_trans (pullLoopRun_bound n s) ?_⟩
  have : n / 2 ≤ ceilDiv n 2 := by
    unfold ceilDiv
    omega
  omega

/-! ### C9: `action = Idle` implies a settled status -/

theorem mem_tableSet_action (tbl : StackTable) (k : Int) (v : EdgeStack)
    (p : Int × EdgeStack) (hv : v.action ≠ EdgeStackAction.idle)
    (hp : p ∈ tableSet tbl k v) :
    p ∈ tbl ∨ p.2.action ≠ EdgeStackAction.idle := by
  rcases mem_tableSet tbl k v p hp with h | h
  · right; rw [h]; exact hv
  · left; exact h

theorem mem_tableSet2_action (tbl : StackTable) (k : Int) (v v' : EdgeStack)
    (p : Int × EdgeStack) (hv : v.action ≠ EdgeStackAction.idle)
    (hv' : v'.action ≠ EdgeStackAction.idle)
    (hp : p ∈ tableSet (tableSet tbl k v) k v') :
    p ∈ tbl ∨ p.2.action ≠ EdgeStackAction.idle := by
  rcases mem_tableSet _ _ _ _ hp with h | h
  · right; rw [h]; exact hv'
  · exact mem_tableSet_action tbl k v p hv h

/-- `processStackRest` only ever writes records carrying the action of the
record it was handed (never `Idle`). -/
theorem processStackRest_mem (env : Env) (et : EngineType) (tbl : StackTable)
    (stackID : Int) (stack : EdgeStack) (inTable : Bool)
    (hact : stack.action ≠ EdgeStackAction.idle) :
    ∀ p ∈ (processStackRest env et tbl stackID stack inTable).1,
      p ∈ tbl ∨ p.2.action ≠ EdgeStackAction.idle := by
  intro p hp
  cases hcfg : env.getEdgeStackConfig stackID with
  | error e =>
      simp only [processStackRest, hcfg] at hp
      exact Or.inl hp
  | ok cfg =>
      cases inTable with
      | false =>
          simp only [processStackRest, hcfg, Bool.false_eq_true, if_false] at hp
          split at hp
          · exact Or.inl hp
          · exact mem_tableSet_action _ _ _ _ (by simpa using hact) hp
      | true =>
          simp only [processStackRest, hcfg, if_true] at hp
          split at hp
          · exact mem_tableSet_action _ _ _ _ (by simpa using hact) hp
          · exact mem_tableSet2_action _ _ _ _ _ (by simpa using hact)
              (by simpa using hact) hp

/-- `processStack` only ever writes records with action `Deploy` or
`Update`. -/
theorem processStack_mem (env : Env) (et : EngineType) (tbl : StackTable)
    (stackID version : Int) :
    ∀ p ∈ (processStack env et tbl stackID version).1,
      p ∈ tbl ∨ p.2.action ≠ EdgeStackAction.idle := by
  intro p hp
  simp only [processStack] at hp
  split at hp
  · split at hp
    · exact Or.inl hp
    · rcases processStackRest_mem env et _ stackID _ true (by simp) p hp with h | h
      · exact mem_tableSet_action _ _ _ _ (by simp) h
      · exact Or.inr h
  · rcases processStackRest_mem env et tbl stackID
        (newEdgeStack stackID version) false (by simp [newEdgeStack]) p hp with h | h
    · exact Or.inl h
    · exact Or.inr h

/-- The snapshot loop only ever writes records with action `Deploy` or
`Update`. -/
theorem processStacksList_mem (env : Env) (et : EngineType) :
    ∀ (l : List (Int × Int)) (tbl : StackTable) (p : Int × EdgeStack),
      p ∈ (processStacksList env et tbl l).1 →
      p ∈ tbl ∨ p.2.action ≠ EdgeStackAction.idle := by
  intro l
  induction l with
  | nil => intro tbl p hp; exact Or.inl hp
  | cons q rest ih =>
      rcases q with ⟨a, b⟩
      intro tbl p hp
      rcases hps : processStack env et tbl a b with ⟨t1, e1, r1⟩
      have ht1 : ∀ p', p' ∈ t1 → p' ∈ tbl ∨ p'.2.action ≠ EdgeStackAction.idle := by
        intro p' hp'
        have hh := processStack_mem env et tbl a b p'
        rw [hps] at hh
        exact hh hp'
      cases r1 with
      | some e =>
          simp only [processStacksList, hps] at hp
          exact ht1 p hp
      | none =>
          simp only [processStacksList, hps] at hp
          rcases hq : processStacksList env et t1 rest with ⟨x, y, z⟩
          rw [hq] at hp
          have hm := ih t1 p (by rw [hq]; exact hp)
          rcases hm with h | h
          · exact ht1 p h
          · exact Or.inr h

/-- `buildDeployerParams` only ever writes records with action `Deploy`,
`Update` or `Delete`. -/
theorem buildDeployerParams_mem (env : Env) (et : EngineType)
    (tbl : StackTable) (stackData : EdgeStackData) (del : Bool) :
    ∀ p ∈ (buildDeployerParams env et tbl stackData del).1,
      p ∈ tbl ∨ p.2.action ≠ EdgeStackAction.idle := by
  intro p hp
  simp only [buildDeployerParams] at hp
  split at hp
  · split at hp
    · exact mem_tableSet_action _ _ _ _ (by simp) hp
    · exact mem_tableSet_action _ _ _ _ (by simp) hp
  · split at hp
    · exact Or.inl hp
    · split at hp
      · split at hp
        · exact Or.inl hp
        · exact mem_tableSet_action _ _ _ _ (by simp) hp
      · exact mem_tableSet_action _ _ _ _ (by simp) hp

/-- `deleteStack` never adds records. -/
theorem deleteStack_mem (tbl : StackTable) (stack : EdgeStack)
    (sn sl : String) (re rde dse : Option String) :
    ∀ p ∈ (deleteStack tbl stack sn sl re rde dse).1, p ∈ tbl := by
  intro p hp
  cases re with
  | some e => exact hp
  | none =>
      cases rde with
      | some e => exact hp
      | none =>
          cases dse with
          | some e => exact hp
          | none => exact mem_tableDel tbl stack.id p hp

/-- On a record whose action is `Deploy` or `Update`, the worker's combined
pull/deploy iteration ends with action `Idle` only together with status
`Done` or `Error` (the intermediate `Deploying` is overwritten before the
iteration commits). -/
theorem workerDeployUpdateIter_idle (stack : EdgeStack) (sn sl : String)
    (pe de : Option String)
    (hact : stack.action = EdgeStackAction.deploy ∨
      stack.action = EdgeStackAction.update)
    (h : (workerDeployUpdateIter stack sn sl pe de).1.action =
      EdgeStackAction.idle) :
    (workerDeployUpdateIter stack sn sl pe de).1.status =
      EdgeStackStatus.done ∨
    (workerDeployUpdateIter stack sn sl pe de).1.status =
      EdgeStackStatus.error := by
  by_cases hf : (stack.prePullImage || stack.rePullImage) = true
  · by_cases hc : stack.retries + 1 ≤ RetryInterval ∨
        (stack.retries + 1) % RetryInterval = 0
    · cases pe with
      | none =>
          cases de <;>
            simp [workerDeployUpdateIter, pullImages, deployStack, hf, hc]
      | some e =>
          exfalso
          by_cases hm : stack.retries + 1 < MaxRetries
          · simp [workerDeployUpdateIter, pullImages, hf, hc, hm] at h
            all_goals rcases hact with h2 | h2 <;> rw [h2] at h <;> cases h
          · simp [workerDeployUpdateIter, pullImages, hf, hc, hm] at h
            all_goals rcases hact with h2 | h2 <;> rw [h2] at h <;> cases h
    · exfalso
      simp [workerDeployUpdateIter, pullImages, hf, hc] at h
      all_goals rcases hact with h2 | h2 <;> rw [h2] at h <;> cases h
  · cases de <;>
      simp [workerDeployUpdateIter, pullImages, deployStack, hf]

/-- C9: in every stack table reachable through reconciler and worker
operations, a record with action `Idle` has status `Done`, `Error` or
`Deploying`. -/
theorem C9_idle_implies_settled (tbl : StackTable) (h : ReachableTable tbl) :
    ∀ p ∈ tbl, p.2.action = EdgeStackAction.idle →
      p.2.status = EdgeStackStatus.done ∨
      p.2.status = EdgeStackStatus.error ∨
      p.2.status = EdgeStackStatus.deploying := by
  induction h with
  | init => intro p hp; simp at hp
  | step tbl tbl' hr hstep ih =>
      intro p hp hact
      cases hstep with
      | worker ws =>
          cases ws with
          | promote =>
              rcases List.mem_map.mp hp with ⟨q, hq, rfl⟩
              have hact' : q.2.action = EdgeStackAction.idle := by
                by_cases hs : q.2.status = EdgeStackStatus.retry <;>
                  simpa [hs] using hact
              by_cases hs : q.2.status = EdgeStackStatus.retry
              · exfalso
                rcases ih q hq hact' with h1 | h1 | h1 <;> rw [h1] at hs <;>
                  cases hs
              · simpa [hs] using ih q hq hact' 
          | pullDeploy stackID stack sn sl pe de hgid hstp hact2 =>
              rcases mem_tableSet _ _ _ _ hp with hh | hh
              · rw [hh] at hact ⊢
                rcases workerDeployUpdateIter_idle stack sn sl pe de hact2
                    hact with h1 | h1
                · exact Or.inl h1
                · exact Or.inr (Or.inl h1)
              · exact ih p hh hact
          | delete stackID stack sn sl re rde dse hgid hstp hact2 =>
              exact ih p (deleteStack_mem _ _ _ _ _ _ _ p hp) hact
      | updateStacks env et isEnabled snap =>
          cases isEnabled with
          | false =>
              simp only [UpdateStacksStatus, Bool.not_false, if_true] at hp
              exact ih p hp hact
          | true =>
              rcases hq : processStacksList env et tbl snap with ⟨t1, e1, r1⟩
              have ht1 : ∀ p', p' ∈ t1 →
                  p' ∈ tbl ∨ p'.2.action ≠ EdgeStackAction.idle := by
                intro p' hp'
                have hh := processStacksList_mem env et snap tbl p'
                rw [hq] at hh
                exact hh hp'
              simp only [UpdateStacksStatus, Bool.not_true,
                Bool.false_eq_true, if_false, hq] at hp
              cases r1 with
              | some e =>
                  rcases ht1 p hp with h1 | h1
                  · exact ih p h1 hact
                  · exact absurd hact h1
              | none =>
                  rcases List.mem_map.mp hp with ⟨q2, hq2, rfl⟩
                  by_cases hmem : snapMember snap q2.1
                  · have hact' : q2.2.action = EdgeStackAction.idle := by
                      simpa [hmem] using hact
                    have hset : q2.2.status = EdgeStackStatus.done ∨
                        q2.2.status = EdgeStackStatus.error ∨
                        q2.2.status = EdgeStackStatus.deploying := by
                      rcases ht1 q2 hq2 with h1 | h1
                      · exact ih q2 h1 hact'
                      · exact absurd hact' h1
                    simpa [hmem] using hset
                  · exact absurd hact (by simp [hmem])
      | buildParams env et stackData del =>
          rcases buildDeployerParams_mem env et tbl stackData del p hp with h1 | h1
          · exact ih p h1 hact
          · exact absurd hact h1

/-- Out-of-band push payload used to build a concrete reachable table. -/
def dataW : EdgeStackData :=
  { id := 7, name := "web", version := 1, stackFileContent := "services:",
    registryCredentials := [], prePullImage := false, rePullImage := false }

/-- The record `buildDeployerParams` commits for `dataW` on an empty table. -/
def recW1 : EdgeStack :=
  { id := 7, name := "web", version := 1, fileFolder := "/data/edge_stacks/7",
    fileName := "docker-compose.yml", status := EdgeStackStatus.pending,
    action := EdgeStackAction.deploy, registryCredentials := [], nameSpace := "",
    prePullImage := false, rePullImage := false, retries := 0 }

/-- Table after the out-of-band deploy push. -/
def tblW1 : StackTable :=
  (buildDeployerParams envW EngineType.dockerStandalone [] dataW false).1

/-- Table after the worker successfully deploys stack 7 (its record is now
action `Idle`, status `Done`). -/
def tblW2 : StackTable :=
  tableSet tblW1 7 (workerDeployUpdateIter recW1 "edge_web" "loc" none none).1

/-- Witness for C9 at a concrete reachable table whose single record has
action `Idle`. -/
theorem C9_idle_implies_settled_witness :
    ((7 : Int), (workerDeployUpdateIter recW1 "edge_web" "loc" none none).1).2.status =
        EdgeStackStatus.done ∨
    ((7 : Int), (workerDeployUpdateIter recW1 "edge_web" "loc" none none).1).2.status =
        EdgeStackStatus.error ∨
    ((7 : Int), (workerDeployUpdateIter recW1 "edge_web" "loc" none none).1).2.status =
        EdgeStackStatus.deploying :=
  C9_idle_implies_settled tblW2
    (ReachableTable.step tblW1 tblW2
      (ReachableTable.step [] tblW1 ReachableTable.init
        (MgrStep.buildParams envW EngineType.dockerStandalone dataW false))
      (MgrStep.worker
        (WorkerStep.pullDeploy tblW1 7 recW1 "edge_web" "loc" none none
          (by decide) (by decide) (Or.inl (by decide)))))
    ((7 : Int), (workerDeployUpdateIter recW1 "edge_web" "loc" none none).1)
    (by decide) (by decide)

end EdgeStackMgr
